import Mathlib

/-!
Verification development for the PrismDB embedded relational database.

The repository's own source consists of client-side usage examples and
black-box tests (`basic_usage.py`, `test_basic.py`); the engine they drive
is specified in `spec.md`.  Every definition below carrying a
`Modelled from the spec:` doc comment is a shallow embedding of an engine
component that is described in the spec but absent from the repository's
source tree; the modelling follows the spec's words (sections 3-7).
DOUBLE values are modelled as exact rationals: every concrete value the
tests exercise is exactly representable and the spec does not prescribe
IEEE semantics.
-/

namespace PrismDB

/-- Modelled from the spec: declared column types (section 3, Column):
INTEGER, VARCHAR, DOUBLE. -/
inductive ColType
  | integer
  | varchar
  | double
deriving DecidableEq, Repr

/-- Modelled from the spec: the tagged value union (section 3, Value):
Integer, Double, Text, Null.  Double is modelled as an exact rational. -/
inductive Value
  | vint (n : Int)
  | vdouble (q : ℚ)
  | vtext (s : String)
  | vnull
deriving DecidableEq, Repr

/-- Modelled from the spec: a Row is an ordered tuple of Values (section 3). -/
abbrev Row := List Value

/-- Modelled from the spec: a Column has a name and a declared type
(section 3); the ordinal position is its index in the table's list. -/
structure Column where
  name : String
  type : ColType
deriving DecidableEq, Repr

/-- Modelled from the spec: a Table is a name plus an ordered list of
Columns together with its append-only, insertion-ordered row storage
(sections 3 and 4.3). -/
structure Table where
  name : String
  cols : List Column
  rows : List Row
deriving DecidableEq, Repr

/-- Modelled from the spec: the error kinds of section 7.  The spec's
SyntaxError is called `parseError` here. -/
inductive DBError
  | parseError
  | unknownTable
  | unknownColumn
  | duplicateTable
  | typeMismatch
  | valueError
  | ioError
  | connectionClosed
deriving DecidableEq, Repr

/-- Modelled from the spec: resolution of a column name to its ordinal
position within a table (sections 3 and 4.2). -/
def lookupCol (cols : List Column) (n : String) : Option Nat :=
  cols.findIdx? (fun c => c.name == n)

/-- Modelled from the spec: the aggregate functions COUNT, SUM, AVG, MIN,
MAX (section 4.1). -/
inductive AggFn
  | cnt
  | sum
  | avg
  | amin
  | amax
deriving DecidableEq, Repr

/-- Modelled from the spec: an aggregate argument is `*` or a column name
(section 4.1). -/
inductive AggArg
  | star
  | column (n : String)
deriving DecidableEq, Repr

/-- Modelled from the spec: the arithmetic operators of the expression
grammar (section 4.1). -/
inductive BinArith
  | badd
  | bsub
  | bmul
  | bdiv
deriving DecidableEq, Repr

/-- Modelled from the spec: scalar expressions — identifiers, literals,
arithmetic, and the scalar string functions UPPER, LOWER, TRIM, REVERSE,
LEFT, RIGHT (sections 4.1 and 4.4). -/
inductive Expr
  | col (n : String)
  | lit (v : Value)
  | arith (op : BinArith) (a b : Expr)
  | upperFn (e : Expr)
  | lowerFn (e : Expr)
  | trimFn (e : Expr)
  | reverseFn (e : Expr)
  | leftFn (e : Expr) (n : Expr)
  | rightFn (e : Expr) (n : Expr)
deriving DecidableEq, Repr

/-- Modelled from the spec: the comparison operators (section 4.1). -/
inductive CmpOp
  | clt
  | cle
  | cgt
  | cge
  | ceq
  | cne
deriving DecidableEq, Repr

/-- Modelled from the spec: a WHERE condition is a comparison between two
scalar expressions (sections 4.1 and 4.4). -/
inductive Cond
  | cmp (op : CmpOp) (a b : Expr)
deriving DecidableEq, Repr

/-- Modelled from the spec: numeric view of a value, used by AVG, division
and cross-type comparison (section 4.4); non-numeric operands are a
TypeMismatchError. -/
def valToRat : Value → Except DBError ℚ
  | .vint n => .ok (n : ℚ)
  | .vdouble q => .ok q
  | _ => .error .typeMismatch

/-- Modelled from the spec: numeric addition with promotion — INTEGER op
INTEGER stays INTEGER, a DOUBLE operand makes the result DOUBLE
(section 4.4). -/
def numAdd : Value → Value → Except DBError Value
  | .vint a, .vint b => .ok (.vint (a + b))
  | .vint a, .vdouble b => .ok (.vdouble ((a : ℚ) + b))
  | .vdouble a, .vint b => .ok (.vdouble (a + (b : ℚ)))
  | .vdouble a, .vdouble b => .ok (.vdouble (a + b))
  | _, _ => .error .typeMismatch

/-- Modelled from the spec: binary arithmetic with numeric promotion;
division always produces DOUBLE (section 4.4).  Division by zero is a
ValueError. -/
def numBin (op : BinArith) (a b : Value) : Except DBError Value :=
  match op with
  | .bdiv =>
    match valToRat a, valToRat b with
    | .ok x, .ok y => if y = 0 then .error .valueError else .ok (.vdouble (x / y))
    | .error e, _ => .error e
    | _, .error e => .error e
  | .badd => numAdd a b
  | .bsub =>
    match a, b with
    | .vint x, .vint y => .ok (.vint (x - y))
    | .vint x, .vdouble y => .ok (.vdouble ((x : ℚ) - y))
    | .vdouble x, .vint y => .ok (.vdouble (x - (y : ℚ)))
    | .vdouble x, .vdouble y => .ok (.vdouble (x - y))
    | _, _ => .error .typeMismatch
  | .bmul =>
    match a, b with
    | .vint x, .vint y => .ok (.vint (x * y))
    | .vint x, .vdouble y => .ok (.vdouble ((x : ℚ) * y))
    | .vdouble x, .vint y => .ok (.vdouble (x * (y : ℚ)))
    | .vdouble x, .vdouble y => .ok (.vdouble (x * y))
    | _, _ => .error .typeMismatch

/-- Modelled from the spec: UPPER maps every character to upper case
(section 4.1). -/
def strUpper (s : String) : String := String.mk (s.toList.map Char.toUpper)

/-- Modelled from the spec: LOWER maps every character to lower case
(section 4.1). -/
def strLower (s : String) : String := String.mk (s.toList.map Char.toLower)

/-- Modelled from the spec: TRIM removes leading and trailing whitespace
(section 4.1). -/
def strTrim (s : String) : String :=
  String.mk (((s.toList.dropWhile Char.isWhitespace).reverse.dropWhile
    Char.isWhitespace).reverse)

/-- Modelled from the spec: REVERSE reverses the character sequence
(section 4.1). -/
def strReverse (s : String) : String := String.mk s.toList.reverse

/-- Modelled from the spec: string functions require Text input, otherwise
TypeMismatchError (section 4.4). -/
def strUnary (f : String → String) : Value → Except DBError Value
  | .vtext s => .ok (.vtext (f s))
  | _ => .error .typeMismatch

/-- Modelled from the spec: LEFT and RIGHT take a count; a negative count
is a ValueError, a count beyond the string length clamps to the full
string (section 4.4). -/
def strTake (fromRight : Bool) : Value → Value → Except DBError Value
  | .vtext s, .vint n =>
    if n < 0 then .error .valueError
    else
      let k := n.toNat
      let cs := s.toList
      .ok (.vtext (String.mk (if fromRight then cs.drop (cs.length - k) else cs.take k)))
  | _, _ => .error .typeMismatch

/-- Modelled from the spec: typed scalar evaluation of an expression
against one Row (section 4.4).  An unresolvable identifier is an
UnknownColumnError. -/
def evalExpr (cols : List Column) (row : Row) : Expr → Except DBError Value
  | .col n =>
    match lookupCol cols n with
    | some i => .ok (row.getD i .vnull)
    | none => .error .unknownColumn
  | .lit v => .ok v
  | .arith op a b =>
    match evalExpr cols row a, evalExpr cols row b with
    | .ok x, .ok y => numBin op x y
    | .error e, _ => .error e
    | _, .error e => .error e
  | .upperFn e =>
    match evalExpr cols row e with
    | .ok v => strUnary strUpper v
    | .error er => .error er
  | .lowerFn e =>
    match evalExpr cols row e with
    | .ok v => strUnary strLower v
    | .error er => .error er
  | .trimFn e =>
    match evalExpr cols row e with
    | .ok v => strUnary strTrim v
    | .error er => .error er
  | .reverseFn e =>
    match evalExpr cols row e with
    | .ok v => strUnary strReverse v
    | .error er => .error er
  | .leftFn e n =>
    match evalExpr cols row e, evalExpr cols row n with
    | .ok v, .ok m => strTake false v m
    | .error er, _ => .error er
    | _, .error er => .error er
  | .rightFn e n =>
    match evalExpr cols row e, evalExpr cols row n with
    | .ok v, .ok m => strTake true v m
    | .error er, _ => .error er
    | _, .error er => .error er

/-- Modelled from the spec: comparison semantics — cross-type numeric
comparison is permitted, text comparison requires same-type operands,
anything else is a TypeMismatchError (section 4.4). -/
def compareVals (op : CmpOp) (a b : Value) : Except DBError Bool :=
  match a, b with
  | .vtext x, .vtext y =>
    .ok (match op with
      | .clt => decide (x < y)
      | .cle => decide (x < y) || decide (x = y)
      | .cgt => decide (y < x)
      | .cge => decide (y < x) || decide (x = y)
      | .ceq => decide (x = y)
      | .cne => decide (¬ x = y))
  | _, _ =>
    match valToRat a, valToRat b with
    | .ok x, .ok y =>
      .ok (match op with
        | .clt => decide (x < y)
        | .cle => decide (x ≤ y)
        | .cgt => decide (y < x)
        | .cge => decide (y ≤ x)
        | .ceq => decide (x = y)
        | .cne => decide (¬ x = y))
    | .error e, _ => .error e
    | _, .error e => .error e

/-- Modelled from the spec: evaluating a WHERE condition against one Row
(section 4.5). -/
def evalCond (cols : List Column) (row : Row) : Cond → Except DBError Bool
  | .cmp op a b =>
    match evalExpr cols row a, evalExpr cols row b with
    | .ok x, .ok y => compareVals op x y
    | .error e, _ => .error e
    | _, .error e => .error e

/-- Modelled from the spec: a projection item — `*`, a scalar expression
with an optional AS alias, or an aggregate call with an optional AS alias
(section 4.1). -/
inductive Proj
  | star
  | scalar (e : Expr) (al : Option String)
  | aggregate (fn : AggFn) (arg : AggArg) (al : Option String)
deriving DecidableEq, Repr

/-- Modelled from the spec: the Select AST node
`Select{projections, from, where?, group_by, order_by}` (section 4.1).
`fromTable = none` is a FROM-less select over literals; each ORDER BY item
carries a descending flag (default ascending). -/
structure SelectStmt where
  projections : List Proj
  fromTable : Option String
  whereCond : Option Cond
  groupBy : List String
  orderBy : List (String × Bool)
deriving DecidableEq, Repr

/-- Error-propagating map over a list: the first failing element aborts
the whole computation, so no partial output ever escapes (section 4.5). -/
def exceptMap (f : α → Except DBError β) : List α → Except DBError (List β)
  | [] => .ok []
  | a :: l =>
    match f a, exceptMap f l with
    | .ok b, .ok bs => .ok (b :: bs)
    | .error e, _ => .error e
    | _, .error e => .error e

/-- Modelled from the spec: row-at-a-time WHERE filtering; an evaluation
failure aborts the statement (section 4.5). -/
def condFilter (cols : List Column) (c : Cond) : List Row → Except DBError (List Row)
  | [] => .ok []
  | r :: rest =>
    match evalCond cols r c, condFilter cols c rest with
    | .ok b, .ok rest2 => .ok (if b then r :: rest2 else rest2)
    | .error e, _ => .error e
    | _, .error e => .error e

/-- Modelled from the spec: apply the optional WHERE predicate
(section 4.5). -/
def filterRows (cols : List Column) : Option Cond → List Row → Except DBError (List Row)
  | none, rows => .ok rows
  | some c, rows => condFilter cols c rows

/-- Modelled from the spec: display name of an aggregate function. -/
def aggFnName : AggFn → String
  | .cnt => "COUNT"
  | .sum => "SUM"
  | .avg => "AVG"
  | .amin => "MIN"
  | .amax => "MAX"

/-- Modelled from the spec: display name of an aggregate argument. -/
def aggArgName : AggArg → String
  | .star => "*"
  | .column n => n

/-- Modelled from the spec: qualified output name of a scalar projection:
`table.column` for a direct column reference (section 3, ResultSchema). -/
def exprName (tname : String) : Expr → String
  | .col n => tname ++ "." ++ n
  | _ => "?column?"

/-- Modelled from the spec: result-schema names contributed by one
projection item: `table.column` for direct projections and `*`, the alias
for computed or aggregate expressions (section 3). -/
def projNames (tname : String) (cols : List Column) : Proj → List String
  | .star => cols.map (fun c => tname ++ "." ++ c.name)
  | .scalar e al => [al.getD (exprName tname e)]
  | .aggregate fn arg al => [al.getD (aggFnName fn ++ "(" ++ aggArgName arg ++ ")")]

/-- Whether a projection item is an aggregate call. -/
def isAgg : Proj → Bool
  | .aggregate _ _ _ => true
  | _ => false

/-- Whether a projection item is `*`. -/
def isStar : Proj → Bool
  | .star => true
  | _ => false

/-- Modelled from the spec: a query runs in aggregate mode when GROUP BY
is present or some projection is an aggregate (section 4.5). -/
def aggMode (q : SelectStmt) : Bool :=
  !q.groupBy.isEmpty || q.projections.any isAgg

/-- Modelled from the spec: `*` projects every table column of the row in
schema order (section 4.1). -/
def expandStar (cols : List Column) (row : Row) : List Value :=
  (List.range cols.length).map (fun i => row.getD i .vnull)

/-- Modelled from the spec: values contributed to an output row by one
projection item in non-aggregate mode; an aggregate here is a grammar
violation (section 4.5). -/
def evalProjRow (cols : List Column) (row : Row) : Proj → Except DBError (List Value)
  | .star => .ok (expandStar cols row)
  | .scalar e _ =>
    match evalExpr cols row e with
    | .ok v => .ok [v]
    | .error er => .error er
  | .aggregate _ _ _ => .error .parseError

/-- Modelled from the spec: an output row in non-aggregate mode is the
concatenation of the values of all projection items (section 4.5). -/
def evalRowProjs (cols : List Column) (row : Row) : List Proj → Except DBError (List Value)
  | [] => .ok []
  | p :: ps =>
    match evalProjRow cols row p, evalRowProjs cols row ps with
    | .ok a, .ok b => .ok (a ++ b)
    | .error e, _ => .error e
    | _, .error e => .error e

/-- Modelled from the spec: the column values of a group for an aggregate
argument (section 4.4). -/
def colVals (cols : List Column) (n : String) (grp : List Row) : Except DBError (List Value) :=
  match lookupCol cols n with
  | none => .error .unknownColumn
  | some i => .ok (grp.map (fun r => r.getD i .vnull))

/-- Fold a list of values with a fallible combiner; the empty list yields
SQL NULL. -/
def fold1 (f : Value → Value → Except DBError Value) : List Value → Except DBError Value
  | [] => .ok .vnull
  | v :: vs => vs.foldlM f v

/-- Modelled from the spec: MIN of two values — numerics compare
cross-type, text compares lexicographically (section 4.4). -/
def valMin (a b : Value) : Except DBError Value :=
  match a, b with
  | .vint x, .vint y => .ok (.vint (if x ≤ y then x else y))
  | .vint x, .vdouble y => .ok (if (x : ℚ) ≤ y then .vint x else .vdouble y)
  | .vdouble x, .vint y => .ok (if x ≤ (y : ℚ) then .vdouble x else .vint y)
  | .vdouble x, .vdouble y => .ok (.vdouble (if x ≤ y then x else y))
  | .vtext x, .vtext y => .ok (.vtext (if x < y then x else y))
  | _, _ => .error .typeMismatch

/-- Modelled from the spec: MAX of two values (section 4.4). -/
def valMax (a b : Value) : Except DBError Value :=
  match a, b with
  | .vint x, .vint y => .ok (.vint (if x ≤ y then y else x))
  | .vint x, .vdouble y => .ok (if (x : ℚ) ≤ y then .vdouble y else .vint x)
  | .vdouble x, .vint y => .ok (if x ≤ (y : ℚ) then .vint y else .vdouble x)
  | .vdouble x, .vdouble y => .ok (.vdouble (if x ≤ y then y else x))
  | .vtext x, .vtext y => .ok (.vtext (if x < y then y else x))
  | _, _ => .error .typeMismatch

/-- Modelled from the spec: AVG over a group — the numeric sum divided by
the count, always DOUBLE (section 4.4). -/
def avgVals (vs : List Value) : Except DBError Value :=
  match vs with
  | [] => .ok .vnull
  | _ =>
    match exceptMap valToRat vs with
    | .ok qs => .ok (.vdouble (qs.sum / (vs.length : ℚ)))
    | .error e => .error e

/-- Modelled from the spec: evaluation of one aggregate call over one
group of rows (sections 4.1 and 4.4).  COUNT(*) counts the group's rows;
COUNT(col) counts its non-null values; SUM/AVG/MIN/MAX require a column
argument. -/
def evalAgg (cols : List Column) (fn : AggFn) (arg : AggArg) (grp : List Row) :
    Except DBError Value :=
  match fn, arg with
  | .cnt, .star => .ok (.vint (grp.length : Int))
  | .cnt, .column n =>
    match colVals cols n grp with
    | .ok vs => .ok (.vint ((vs.filter (fun v => !(v == Value.vnull))).length : Int))
    | .error e => .error e
  | .sum, .column n =>
    match colVals cols n grp with
    | .ok vs => fold1 numAdd vs
    | .error e => .error e
  | .avg, .column n =>
    match colVals cols n grp with
    | .ok vs => avgVals vs
    | .error e => .error e
  | .amin, .column n =>
    match colVals cols n grp with
    | .ok vs => fold1 valMin vs
    | .error e => .error e
  | .amax, .column n =>
    match colVals cols n grp with
    | .ok vs => fold1 valMax vs
    | .error e => .error e
  | _, .star => .error .parseError

/-- Modelled from the spec: in aggregate mode every projection item is
evaluated once per group — aggregates over the group's rows, grouping
columns against the group's first row; `*` is a grammar violation
(section 4.5). -/
def evalProjGrouped (cols : List Column) (grp : List Row) : Proj → Except DBError Value
  | .aggregate fn arg _ => evalAgg cols fn arg grp
  | .scalar e _ => evalExpr cols (grp.headD []) e
  | .star => .error .parseError

/-- Modelled from the spec: add one row to the insertion-ordered group
accumulator — extend the existing group with the same key, else open a
new group at the end (section 4.5, order of first occurrence). -/
def addToGroups (gs : List (List Value × List Row)) (k : List Value) (r : Row) :
    List (List Value × List Row) :=
  match gs with
  | [] => [(k, [r])]
  | (k2, rs) :: rest =>
    if k2 = k then (k2, rs ++ [r]) :: rest
    else (k2, rs) :: addToGroups rest k r

/-- Modelled from the spec: partition the passing rows by grouping key,
emitting groups in order of first occurrence (section 4.5). -/
def groupRows (keyOf : Row → List Value) (rows : List Row) :
    List (List Value × List Row) :=
  rows.foldl (fun gs r => addToGroups gs (keyOf r) r) []

/-- Modelled from the spec: resolve the GROUP BY column names against the
table schema before execution (sections 4.2 and 4.5). -/
def resolveCols (cols : List Column) : List String → Except DBError (List Nat)
  | [] => .ok []
  | n :: ns =>
    match lookupCol cols n with
    | none => .error .unknownColumn
    | some i =>
      match resolveCols cols ns with
      | .ok l => .ok (i :: l)
      | .error e => .error e

/-- Modelled from the spec: scan source of a select — a named table looked
up in the Catalog, or for a FROM-less select a single empty row; `*`
without FROM is a grammar violation (sections 4.2 and 4.5). -/
def resolveTable (st : List Table) (q : SelectStmt) : Except DBError Table :=
  match q.fromTable with
  | none =>
    if q.projections.any isStar then .error .parseError
    else .ok ⟨"", [], [[]]⟩
  | some n =>
    match st.find? (fun t => t.name == n) with
    | some t => .ok t
    | none => .error .unknownTable

/-- Modelled from the spec: projection stage — grouped evaluation when in
aggregate mode (the whole filtered set is one implicit group when GROUP BY
is absent), else per-row evaluation (section 4.5). -/
def selectRows (tbl : Table) (q : SelectStmt) (passed : List Row) :
    Except DBError (List Row) :=
  if aggMode q then
    match resolveCols tbl.cols q.groupBy with
    | .error e => .error e
    | .ok gidx =>
      exceptMap (fun g => exceptMap (evalProjGrouped tbl.cols g.2) q.projections)
        (if q.groupBy.isEmpty then [([], passed)]
         else groupRows (fun r => gidx.map (fun i => r.getD i Value.vnull)) passed)
  else
    exceptMap (fun r => evalRowProjs tbl.cols r q.projections) passed

/-- Modelled from the spec: ORDER BY names resolve against the result
schema; a bare column name matches its qualified `table.column` form
(sections 4.1 and 4.5). -/
def nameMatches (qn : String) (n : String) : Bool :=
  qn == n || qn.endsWith ("." ++ n)

/-- Modelled from the spec: resolve ORDER BY items to output column
positions (section 4.5). -/
def resolveOrderCols (names : List String) : List (String × Bool) →
    Except DBError (List (Nat × Bool))
  | [] => .ok []
  | (n, d) :: rest =>
    match names.findIdx? (fun qn => nameMatches qn n) with
    | none => .error .unknownColumn
    | some i =>
      match resolveOrderCols names rest with
      | .ok l => .ok ((i, d) :: l)
      | .error e => .error e

/-- Total ordering on values used by the sort stage. -/
def valueLe (a b : Value) : Bool :=
  match a, b with
  | .vnull, _ => true
  | _, .vnull => false
  | .vint x, .vint y => decide (x ≤ y)
  | .vint x, .vdouble y => decide ((x : ℚ) ≤ y)
  | .vdouble x, .vint y => decide (x ≤ (y : ℚ))
  | .vdouble x, .vdouble y => decide (x ≤ y)
  | .vtext x, .vtext y => decide (x < y) || decide (x = y)
  | .vint _, .vtext _ => true
  | .vdouble _, .vtext _ => true
  | .vtext _, _ => false

/-- Modelled from the spec: lexicographic comparison of two output rows by
the resolved ORDER BY key positions and directions (section 4.5). -/
def rowKeyLe : List (Nat × Bool) → Row → Row → Bool
  | [], _, _ => true
  | (i, desc) :: rest, a, b =>
    let x := a.getD i Value.vnull
    let y := b.getD i Value.vnull
    if x = y then rowKeyLe rest a b
    else if desc then valueLe y x else valueLe x y

/-- Stable insertion of an element after every earlier element that
compares less-or-equal. -/
def insertSorted (le : Row → Row → Bool) (a : Row) : List Row → List Row
  | [] => [a]
  | b :: l => if le b a then b :: insertSorted le a l else a :: b :: l

/-- Modelled from the spec: stable sort of the output rows, ties resolved
by prior order (section 4.5). -/
def stableSort (le : Row → Row → Bool) (rows : List Row) : List Row :=
  rows.foldl (fun acc r => insertSorted le r acc) []

/-- Modelled from the spec: the optional ORDER BY stage (section 4.5). -/
def applyOrder (names : List String) (ob : List (String × Bool)) (rows : List Row) :
    Except DBError (List Row) :=
  if ob.isEmpty then .ok rows
  else
    match resolveOrderCols names ob with
    | .error e => .error e
    | .ok keys => .ok (stableSort (rowKeyLe keys) rows)

/-- Modelled from the spec: one ResultSet — result schema, output rows in
final order, and the single-pass consumption position (sections 3 and
4.6). -/
structure ResultSet where
  schema : List String
  rows : List Row
  pos : Nat
deriving DecidableEq, Repr

/-- Modelled from the spec: the executor pipeline — resolve, scan, filter,
group/aggregate, project, sort, emit (section 4.5).  The grammar demands a
non-empty projection list. -/
def runSelect (tables : List Table) (q : SelectStmt) : Except DBError ResultSet :=
  if q.projections.isEmpty then .error .parseError
  else
    match resolveTable tables q with
    | .error e => .error e
    | .ok tbl =>
      match filterRows tbl.cols q.whereCond tbl.rows with
      | .error e => .error e
      | .ok passed =>
        match selectRows tbl q passed with
        | .error e => .error e
        | .ok rows =>
          match applyOrder ((q.projections.map (projNames tbl.name tbl.cols)).flatten)
              q.orderBy rows with
          | .error e => .error e
          | .ok rows2 =>
            .ok ⟨(q.projections.map (projNames tbl.name tbl.cols)).flatten, rows2, 0⟩

/-- Modelled from the spec: the op-code plus payload of a WAL record — one
record per mutating statement, CREATE TABLE or INSERT (section 3). -/
inductive WalOp
  | createTable (n : String) (cols : List Column)
  | insertRow (t : String) (vals : List Value)
deriving DecidableEq, Repr

/-- Modelled from the spec: a WAL record carries a monotonic sequence
number and the operation (section 3). -/
structure WalRecord where
  seq : Nat
  op : WalOp
deriving DecidableEq, Repr

/-- Placeholder record used only as the default of list indexing. -/
def dummyRec : WalRecord := ⟨0, .createTable "" []⟩

/-- Modelled from the spec: the live engine state — the Catalog with each
table's contents, plus the next WAL sequence number (sections 3 and
4.3). -/
structure DBState where
  tables : List Table
  nextSeq : Nat
deriving DecidableEq, Repr

/-- Modelled from the spec: whether a value is acceptable for a declared
column type — INTEGER to DOUBLE implicit widening is permitted, VARCHAR
accepts text only (section 4.3). -/
def typeOk : ColType → Value → Bool
  | .integer, .vint _ => true
  | .double, .vdouble _ => true
  | .double, .vint _ => true
  | .varchar, .vtext _ => true
  | _, _ => false

/-- Modelled from the spec: an inserted row must match the schema in arity
and per-slot type (sections 3 and 4.3). -/
def rowTypeOk (cols : List Column) (vals : List Value) : Bool :=
  decide (vals.length = cols.length) &&
    (cols.zip vals).all (fun p => typeOk p.1.type p.2)

/-- Append a row to the named table's storage. -/
def updTable : List Table → String → List Value → List Table
  | [], _, _ => []
  | t :: rest, n, v =>
    if t.name = n then { t with rows := t.rows ++ [v] } :: rest
    else t :: updTable rest n v

/-- Modelled from the spec: the state transition of one mutating statement
— CREATE TABLE fails on a duplicate or empty column list, INSERT fails on
an unknown table or a type mismatch; on success the WAL sequence number
advances (sections 4.2 and 4.3). -/
def execMut (st : DBState) : WalOp → Except DBError DBState
  | .createTable n cols =>
    if st.tables.any (fun t => t.name == n) then .error .duplicateTable
    else if cols.isEmpty then .error .parseError
    else .ok ⟨st.tables ++ [⟨n, cols, []⟩], st.nextSeq + 1⟩
  | .insertRow t vals =>
    match st.tables.find? (fun tb => tb.name == t) with
    | none => .error .unknownTable
    | some tbl =>
      if rowTypeOk tbl.cols vals then .ok ⟨updTable st.tables t vals, st.nextSeq + 1⟩
      else .error .typeMismatch

/-- Modelled from the spec: applying one replayed WAL record; a record
that was appended after a successful execution always re-applies
(section 4.3). -/
def applyRec (st : DBState) (r : WalRecord) : DBState :=
  match execMut st r.op with
  | .ok st2 => st2
  | .error _ => st

/-- Modelled from the spec: replay WAL records in order (section 4.3). -/
def replay (st : DBState) (l : List WalRecord) : DBState :=
  l.foldl applyRec st

/-- Modelled from the spec: the on-disk contents of a file-backed database
— the checkpoint snapshot (Catalog plus all table contents, with its
sequence number) followed by the append-only WAL section (sections 3, 4.3
and 6). -/
structure DBFile where
  checkpointSeq : Nat
  checkpointTables : List Table
  wal : List WalRecord
deriving DecidableEq, Repr

/-- The state a checkpoint snapshot restores to. -/
def chkState (f : DBFile) : DBState := ⟨f.checkpointTables, f.checkpointSeq⟩

/-- Modelled from the spec: opening an existing path loads the checkpoint
snapshot, then replays the subsequent WAL records in order (section
4.3). -/
def openFile (f : DBFile) : DBState := replay (chkState f) f.wal

/-- Modelled from the spec: a Connection owns the engine state, the
on-disk file when file-backed, and its closed flag (sections 3 and 5). -/
structure Conn where
  st : DBState
  file : Option DBFile
  closed : Bool
deriving DecidableEq, Repr

/-- Modelled from the spec: `connect()` with no path — an in-memory,
non-persistent database (section 6). -/
def connectMem : Conn := ⟨⟨[], 0⟩, none, false⟩

/-- Modelled from the spec: `connect(path)` — a fresh file when the path
holds no database, otherwise checkpoint load plus WAL replay (sections 4.3
and 6). -/
def connectFile : Option DBFile → Conn
  | none => ⟨⟨[], 0⟩, some ⟨0, [], []⟩, false⟩
  | some f => ⟨openFile f, some f, false⟩

/-- Modelled from the spec: a statement AST — CreateTable, Insert or
Select (section 4.1). -/
inductive Stmt
  | create (n : String) (cols : List Column)
  | insert (t : String) (vals : List Value)
  | select (q : SelectStmt)
deriving DecidableEq, Repr

/-- Modelled from the spec: the empty-but-iterable acknowledgement
ResultSet of a DDL/DML statement (section 6). -/
def emptyResult : ResultSet := ⟨[], [], 0⟩

/-- Modelled from the spec: executing one mutating statement on a
connection — validation first; on success the WAL record is appended
(flushed before the call returns) and the state mutated; any failure
leaves both state and file untouched (sections 4.3 and 4.5). -/
def execMutConn (c : Conn) (op : WalOp) : Conn × Except DBError ResultSet :=
  match execMut c.st op with
  | .error e => (c, .error e)
  | .ok st2 =>
    ({ st := st2,
       file := c.file.map (fun f => { f with wal := f.wal ++ [⟨c.st.nextSeq, op⟩] }),
       closed := false }, .ok emptyResult)

/-- Modelled from the spec: `Connection.execute` — fails with
ConnectionClosedError after `close()`; queries leave the state untouched;
DDL/DML goes through the WAL path (sections 4.5, 5 and 6). -/
def connExec (c : Conn) (s : Stmt) : Conn × Except DBError ResultSet :=
  if c.closed then (c, .error .connectionClosed)
  else
    match s with
    | .select q => (c, runSelect c.st.tables q)
    | .create n cols => execMutConn c (.createTable n cols)
    | .insert t vals => execMutConn c (.insertRow t vals)

/-- Execute a list of statements in order, keeping the final connection. -/
def runStmts (c : Conn) (ss : List Stmt) : Conn :=
  ss.foldl (fun c s => (connExec c s).1) c

/-- A run of statements against a freshly created file-backed database. -/
def runFresh (ss : List Stmt) : Conn := runStmts (connectFile none) ss

/-- Modelled from the spec: `close()` — a final checkpoint (full snapshot,
WAL truncated) in file-backed mode, then the closed flag; idempotent
(sections 4.3 and 5). -/
def closeConn (c : Conn) : Conn :=
  if c.closed then c
  else
    { st := c.st, closed := true,
      file := c.file.map (fun _ => ⟨c.st.nextSeq, c.st.tables, []⟩) }

/-- Modelled from the spec: `fetchone()` — the next row, or the `none`
sentinel at exhaustion (section 4.6). -/
def fetchone (rs : ResultSet) : Option Row × ResultSet :=
  match rs.rows[rs.pos]? with
  | some r => (some r, { rs with pos := rs.pos + 1 })
  | none => (none, rs)

/-- Modelled from the spec: `fetchall()` — drains and returns all
remaining rows, leaving the ResultSet exhausted (section 4.6). -/
def fetchall (rs : ResultSet) : List Row × ResultSet :=
  (rs.rows.drop rs.pos, { rs with pos := rs.rows.length })

/-- The results of `n` successive `fetchone()` calls. -/
def fetchN : Nat → ResultSet → List (Option Row) × ResultSet
  | 0, rs => ([], rs)
  | n + 1, rs =>
    let p := fetchone rs
    let rest := fetchN n p.2
    (p.1 :: rest.1, rest.2)

/-- Modelled from the spec: a Cursor is a thin holder of the currently
active ResultSet (sections 3 and 4.6). -/
structure Cursor where
  res : ResultSet
deriving DecidableEq, Repr

/-- Modelled from the spec: `Connection.cursor()` — fails with
ConnectionClosedError after `close()` (sections 5 and 6). -/
def connCursor (c : Conn) : Except DBError Cursor :=
  if c.closed then .error .connectionClosed else .ok ⟨emptyResult⟩

/-- Modelled from the spec: whole-result dictionary conversion — a mapping
from qualified output name to the ordered sequence of that column's values
across all rows (section 4.6). -/
def toDict (rs : ResultSet) : List (String × List Value) :=
  rs.schema.enum.map (fun p => (p.2, rs.rows.map (fun r => r.getD p.1 Value.vnull)))

/-- Modelled from the spec: `Connection.to_dict` — fails with
ConnectionClosedError after `close()`, else fully materializes the query
result (sections 4.6 and 6). -/
def connToDict (c : Conn) (q : SelectStmt) : Except DBError (List (String × List Value)) :=
  match (connExec c (.select q)).2 with
  | .ok rs => .ok (toDict rs)
  | .error e => .error e

/-- First-occurrence deduplication: keeps the first copy of every element,
in order of first occurrence.  This is the declarative yardstick the
grouping stage is measured against. -/
def dedupFirst {α : Type} [DecidableEq α] : List α → List α
  | [] => []
  | k :: l => k :: dedupFirst (l.filter (fun x => !(x == k)))
termination_by l => l.length
decreasing_by
  simp only [List.length_cons]
  exact Nat.lt_succ_of_le (List.length_filter_le _ _)

/-! Concrete scenarios, mirroring the statements the repository's examples
and tests issue (`basic_usage.py`, `test_basic.py`). -/

/-- The `test_aggregates` table: INTEGER values 10, 20, 30. -/
def numbersConn : Conn := runStmts connectMem
  [ .create "numbers" [⟨"value", .integer⟩],
    .insert "numbers" [.vint 10],
    .insert "numbers" [.vint 20],
    .insert "numbers" [.vint 30] ]

/-- The `test_aggregates` query:
SELECT SUM(value), AVG(value), MIN(value), MAX(value), COUNT(*). -/
def aggQuery : SelectStmt :=
  ⟨[ .aggregate .sum (.column "value") none,
     .aggregate .avg (.column "value") none,
     .aggregate .amin (.column "value") none,
     .aggregate .amax (.column "value") none,
     .aggregate .cnt .star none ], some "numbers", none, [], []⟩

/-- The `example_string_functions` query over string literals. -/
def stringFnQuery : SelectStmt :=
  ⟨[ .scalar (.upperFn (.lit (.vtext "hello"))) (some "upper_case"),
     .scalar (.lowerFn (.lit (.vtext "WORLD"))) (some "lower_case"),
     .scalar (.trimFn (.lit (.vtext "  space  "))) (some "trimmed"),
     .scalar (.reverseFn (.lit (.vtext "prismdb"))) (some "reversed"),
     .scalar (.leftFn (.lit (.vtext "database")) (.lit (.vint 4))) (some "left_part"),
     .scalar (.rightFn (.lit (.vtext "database")) (.lit (.vint 4))) (some "right_part") ],
   none, none, [], []⟩

/-- The `example_aggregates` sales table. -/
def salesConn : Conn := runStmts connectMem
  [ .create "sales"
      [⟨"region", .varchar⟩, ⟨"product", .varchar⟩, ⟨"amount", .double⟩,
       ⟨"quantity", .integer⟩],
    .insert "sales" [.vtext "North", .vtext "Laptop", .vdouble 1500, .vint 3],
    .insert "sales" [.vtext "North", .vtext "Mouse", .vdouble 45, .vint 10],
    .insert "sales" [.vtext "South", .vtext "Laptop", .vdouble 2000, .vint 4],
    .insert "sales" [.vtext "South", .vtext "Keyboard", .vdouble 150, .vint 5] ]

/-- The `example_aggregates` GROUP BY query, without the final ORDER BY so
that group emission order itself is observed. -/
def salesGroupQuery : SelectStmt :=
  ⟨[ .scalar (.col "region") none,
     .aggregate .cnt .star (some "num_sales"),
     .aggregate .sum (.column "amount") (some "total_revenue"),
     .aggregate .avg (.column "amount") (some "avg_sale"),
     .aggregate .amax (.column "quantity") (some "max_qty") ],
   some "sales", none, ["region"], []⟩

/-- The `test_to_dict` table: 2 rows, 2 columns. -/
def dictConn : Conn := runStmts connectMem
  [ .create "test" [⟨"id", .integer⟩, ⟨"name", .varchar⟩],
    .insert "test" [.vint 1, .vtext "Alice"],
    .insert "test" [.vint 2, .vtext "Bob"] ]

/-- A `SELECT * FROM test` query. -/
def starTestQuery : SelectStmt := ⟨[.star], some "test", none, [], []⟩

/-- A `SELECT * FROM t` query over one table. -/
def starQuery (t : String) : SelectStmt := ⟨[.star], some t, none, [], []⟩

/-- The `example_file_based_db` statement script: CREATE TABLE plus one
INSERT against a file-backed database. -/
def fileScript : List Stmt :=
  [ .create "persistent" [⟨"id", .integer⟩, ⟨"value", .varchar⟩],
    .insert "persistent" [.vint 1, .vtext "stored"] ]

/-- The two WAL records `fileScript` commits. -/
def fileRec0 : WalRecord :=
  ⟨0, .createTable "persistent" [⟨"id", .integer⟩, ⟨"value", .varchar⟩]⟩

/-- The trailing WAL record of `fileScript`, the one a crash mid-append
may truncate. -/
def fileRec1 : WalRecord := ⟨1, .insertRow "persistent" [.vint 1, .vtext "stored"]⟩

/-- The statement script whose ResultSet witnesses the sentinel laws. -/
def sentinelScript : List Stmt :=
  [ .create "t" [⟨"value", .integer⟩], .insert "t" [.vint 1] ]

/-- The ResultSet `SELECT * FROM t` produces after `sentinelScript`. -/
def sentinelResult : ResultSet := ⟨["t.value"], [[.vint 1]], 0⟩

/-- The single-column schema of the `test_iterator` table. -/
def iterCols : List Column := [⟨"value", .integer⟩]

/-- The three rows `test_iterator` inserts. -/
def iterRows : List Row := [[.vint 1], [.vint 2], [.vint 3]]

/-- A concrete three-row ResultSet, as produced by `test_cursor`'s
`SELECT * FROM test`. -/
def fetchDemo : ResultSet := ⟨["test.value"], [[.vint 1], [.vint 2], [.vint 3]], 0⟩

/-- The concrete 2-row, 2-column ResultSet of `test_to_dict`. -/
def dictDemo : ResultSet :=
  ⟨["test.id", "test.name"],
   [[.vint 1, .vtext "Alice"], [.vint 2, .vtext "Bob"]], 0⟩

/-- The durability invariant a live file-backed connection maintains:
still open, the on-disk checkpoint plus WAL replays to exactly the live
state, and the WAL holds consecutively numbered records continuing the
checkpoint's sequence number (spec sections 3 and 4.3). -/
def FileInv (c : Conn) : Prop :=
  c.closed = false ∧ ∃ f, c.file = some f ∧
    openFile f = c.st ∧
    f.checkpointSeq + f.wal.length = c.st.nextSeq ∧
    ∀ k, k < f.wal.length → (f.wal.getD k dummyRec).seq = f.checkpointSeq + k

/-- A demonstration grouping key: the first value of a row. -/
def groupKeyDemo : Row → List Value := fun r => r.take 1

/-- Demonstration rows with two distinct grouping keys, North first. -/
def groupRowsDemo : List Row :=
  [[.vtext "North", .vint 1], [.vtext "South", .vint 2], [.vtext "North", .vint 3]]

/-! ## Theorems -/

/-- C3: over the table holding exactly the INTEGER values 10, 20 and 30,
the aggregate query returns the single implicit-group row SUM(value)=60,
AVG(value)=20.0, MIN(value)=10, MAX(value)=30 and COUNT(*)=3. -/
theorem c3_aggregates :
    (connExec numbersConn (.select aggQuery)).2 =
      .ok ⟨["SUM(value)", "AVG(value)", "MIN(value)", "MAX(value)", "COUNT(*)"],
           [[.vint 60, .vdouble 20, .vint 10, .vint 30, .vint 3]], 0⟩ := by
  with_unfolding_all rfl

/-- C5: the scalar string functions evaluate to exactly
UPPER('hello')='HELLO', LOWER('WORLD')='world', TRIM('  space  ')='space',
REVERSE('prismdb')='bdmsirp', LEFT('database',4)='data' and
RIGHT('database',4)='base'. -/
theorem c5_string_functions :
    (connExec connectMem (.select stringFnQuery)).2 =
      .ok ⟨["upper_case", "lower_case", "trimmed", "reversed", "left_part", "right_part"],
           [[.vtext "HELLO", .vtext "world", .vtext "space", .vtext "bdmsirp",
             .vtext "data", .vtext "base"]], 0⟩ := rfl

/-- The closed flag is set after `closeConn`, whatever the prior state. -/
theorem closed_closeConn (c : Conn) : (closeConn c).closed = true := by
  unfold closeConn
  split
  · assumption
  · rfl

/-- Closing an already-closed connection is the identity. -/
theorem closeConn_of_closed (c : Conn) (h : c.closed = true) : closeConn c = c := by
  unfold closeConn
  simp [h]

/-- C9: `close()` is idempotent — a second close returns the same
connection, in particular the same on-disk file — and execute, cursor and
to_dict on a closed connection all fail with ConnectionClosedError. -/
theorem c9_close_idempotent (c : Conn) (s : Stmt) (q : SelectStmt) :
    closeConn (closeConn c) = closeConn c ∧
    (closeConn (closeConn c)).file = (closeConn c).file ∧
    connExec (closeConn c) s = (closeConn c, .error .connectionClosed) ∧
    connCursor (closeConn c) = .error .connectionClosed ∧
    connToDict (closeConn c) q = .error .connectionClosed := by
  have hcl := closed_closeConn c
  have hid : closeConn (closeConn c) = closeConn c := closeConn_of_closed _ hcl
  refine ⟨hid, by rw [hid], ?_, ?_, ?_⟩
  · unfold connExec
    simp [hcl]
  · unfold connCursor
    simp [hcl]
  · unfold connToDict connExec
    simp [hcl]

/-- C8: an execution error never mutates the connection — the Catalog,
every table's contents and the on-disk file are exactly as before, and the
`Except` result carries no partial ResultSet. -/
theorem c8_error_no_mutation (c : Conn) (s : Stmt) (e : DBError)
    (h : (connExec c s).2 = .error e) : (connExec c s).1 = c := by
  unfold connExec at h ⊢
  by_cases hc : c.closed = true
  · simp [hc]
  · simp only [Bool.not_eq_true] at hc
    simp only [hc] at h ⊢
    cases s with
    | select q => simp
    | create n cols =>
      simp only [execMutConn] at h ⊢
      cases hm : execMut c.st (.createTable n cols) with
      | ok st2 => rw [hm] at h; simp at h
      | error e2 => simp
    | insert t vals =>
      simp only [execMutConn] at h ⊢
      cases hm : execMut c.st (.insertRow t vals) with
      | ok st2 => rw [hm] at h; simp at h
      | error e2 => simp

/-- C8 witness: inserting into a table that does not exist fails with
UnknownTableError and leaves the fresh in-memory connection unchanged. -/
theorem c8_error_no_mutation_witness :
    (connExec connectMem (.insert "missing" [.vint 1])).1 = connectMem :=
  c8_error_no_mutation connectMem (.insert "missing" [.vint 1]) .unknownTable rfl

/-- `fetchone` on a non-exhausted ResultSet returns the row at the current
position and advances it. -/
theorem fetchone_of_lt (rs : ResultSet) (h : rs.pos < rs.rows.length) :
    fetchone rs = (some rs.rows[rs.pos], { rs with pos := rs.pos + 1 }) := by
  unfold fetchone
  rw [List.getElem?_eq_getElem h]

/-- `fetchone` on an exhausted ResultSet returns the sentinel and does not
move. -/
theorem fetchone_of_ge (rs : ResultSet) (h : rs.rows.length ≤ rs.pos) :
    fetchone rs = (none, rs) := by
  unfold fetchone
  rw [List.getElem?_eq_none h]

/-- Successive `fetchone` calls walk the remaining rows one at a time, in
order, advancing the position by one per call. -/
theorem fetchN_spec : ∀ (n : Nat) (rs : ResultSet), rs.pos + n ≤ rs.rows.length →
    (fetchN n rs).1 = ((rs.rows.drop rs.pos).take n).map some ∧
    (fetchN n rs).2 = ⟨rs.schema, rs.rows, rs.pos + n⟩
  | 0, rs, _ => by
    constructor
    · simp [fetchN]
    · show rs = _
      simp
  | n + 1, rs, h => by
    have hlt : rs.pos < rs.rows.length := by omega
    have ih := fetchN_spec n ⟨rs.schema, rs.rows, rs.pos + 1⟩ (by simp; omega)
    unfold fetchN
    rw [fetchone_of_lt rs hlt]
    simp only at ih ⊢
    constructor
    · rw [ih.1, List.drop_eq_getElem_cons hlt, List.take_succ_cons, List.map_cons]
    · rw [ih.2]
      congr 1
      omega

/-- C6: on an N-row ResultSet the first N `fetchone()` calls return the N
rows in final order, one each; the sentinel first appears on call N+1; and
`fetchall()` returns all remaining rows and leaves the ResultSet
exhausted. -/
theorem c6_fetch_semantics (rs rs2 : ResultSet) (h : rs.pos = 0) :
    (fetchN rs.rows.length rs).1 = rs.rows.map some ∧
    (fetchone (fetchN rs.rows.length rs).2).1 = none ∧
    (fetchall rs2).1 = rs2.rows.drop rs2.pos ∧
    (fetchone (fetchall rs2).2).1 = none := by
  obtain ⟨h1, h2⟩ := fetchN_spec rs.rows.length rs (by omega)
  refine ⟨?_, ?_, rfl, ?_⟩
  · rw [h1, h]
    simp
  · rw [h2, fetchone_of_ge _ (by simp)]
  · rw [show (fetchall rs2).2 = { rs2 with pos := rs2.rows.length } from rfl,
      fetchone_of_ge _ (by simp)]

/-- C6 witness: the three-row ResultSet of `test_cursor` — three rows from
three calls, sentinel on the fourth, fetchall drains. -/
theorem c6_fetch_semantics_witness :
    (fetchN fetchDemo.rows.length fetchDemo).1 = fetchDemo.rows.map some ∧
    (fetchone (fetchN fetchDemo.rows.length fetchDemo).2).1 = none ∧
    (fetchall fetchDemo).1 = fetchDemo.rows.drop fetchDemo.pos ∧
    (fetchone (fetchall fetchDemo).2).1 = none :=
  c6_fetch_semantics fetchDemo fetchDemo rfl

/-- C7: `to_dict` has exactly one entry per projected column, keyed by the
qualified column names in schema order; every entry holds one value per
result row, and the entry at position `i` is that column's values across
all rows in result order.  On the concrete 2-row, 2-column `test_to_dict`
table this yields exactly 2 entries of 2 elements each, in insertion
order. -/
theorem c7_to_dict (rs : ResultSet) (i : Nat) (hi : i < rs.schema.length) :
    (toDict rs).length = rs.schema.length ∧
    (toDict rs).map Prod.fst = rs.schema ∧
    (toDict rs).map (fun p => p.2.length) = rs.schema.map (fun _ => rs.rows.length) ∧
    (toDict rs).getD i ("", []) =
      (rs.schema.getD i "", rs.rows.map (fun r => r.getD i Value.vnull)) ∧
    connToDict dictConn starTestQuery =
      .ok [("test.id", [.vint 1, .vint 2]),
           ("test.name", [.vtext "Alice", .vtext "Bob"])] := by
  refine ⟨?_, ?_, ?_, ?_, rfl⟩
  · simp [toDict]
  · rw [toDict, List.map_map]
    exact List.enum_map_snd rs.schema
  · rw [toDict, List.map_map]
    simp only [Function.comp_def, List.length_map, List.map_const']
    rw [List.enum_length]
  · rw [List.getD_eq_getElem?_getD, toDict,
      List.getElem?_map, List.getElem?_enum, List.getElem?_eq_getElem hi,
      List.getD_eq_getElem?_getD, List.getElem?_eq_getElem hi]
    rfl

/-- C7 witness: the 2-row, 2-column ResultSet of `test_to_dict` at column
position 0. -/
theorem c7_to_dict_witness :
    (toDict dictDemo).length = dictDemo.schema.length ∧
    (toDict dictDemo).map Prod.fst = dictDemo.schema ∧
    (toDict dictDemo).map (fun p => p.2.length) =
      dictDemo.schema.map (fun _ => dictDemo.rows.length) ∧
    (toDict dictDemo).getD 0 ("", []) =
      (dictDemo.schema.getD 0 "", dictDemo.rows.map (fun r => r.getD 0 Value.vnull)) ∧
    connToDict dictConn starTestQuery =
      .ok [("test.id", [.vint 1, .vint 2]),
           ("test.name", [.vtext "Alice", .vtext "Bob"])] :=
  c7_to_dict dictDemo 0 (by decide)

/-- Indexing the range of a list's length with a default recovers the
list itself. -/
theorem range_map_getD : ∀ (l : List Value) (d : Value),
    (List.range l.length).map (fun i => l.getD i d) = l
  | [], _ => by simp
  | a :: l, d => by
    rw [List.length_cons, List.range_succ_eq_map, List.map_cons, List.map_map]
    simp only [Function.comp_def, List.getD_cons_succ, List.getD_cons_zero]
    rw [range_map_getD l d]

/-- `*` expands a schema-conforming row to exactly itself. -/
theorem expandStar_eq (cols : List Column) (r : Row) (h : r.length = cols.length) :
    expandStar cols r = r := by
  unfold expandStar
  rw [← h]
  exact range_map_getD r .vnull

/-- `exceptMap` over a pointwise-identity succeeds with the input list. -/
theorem exceptMap_ok_of_all {α : Type} (f : α → Except DBError α) :
    ∀ (l : List α), (∀ a ∈ l, f a = .ok a) → exceptMap f l = .ok l
  | [], _ => rfl
  | a :: l, h => by
    unfold exceptMap
    rw [h a (by simp), exceptMap_ok_of_all f l (fun x hx => h x (by simp [hx]))]

/-- A row that passes the insert type check has the schema's arity. -/
theorem rowTypeOk_length (cols : List Column) (vals : List Value)
    (h : rowTypeOk cols vals = true) : vals.length = cols.length := by
  simp only [rowTypeOk, Bool.and_eq_true, decide_eq_true_eq] at h
  exact h.1

/-- `SELECT * FROM t` with no WHERE, GROUP BY or ORDER BY returns the
stored rows unchanged, under the qualified star schema. -/
theorem runSelect_star (t : String) (cols : List Column) (rows : List Row)
    (hlen : ∀ r ∈ rows, r.length = cols.length) :
    runSelect [⟨t, cols, rows⟩] (starQuery t) =
      .ok ⟨cols.map (fun c => t ++ "." ++ c.name), rows, 0⟩ := by
  have hrows : exceptMap (fun r => evalRowProjs cols r [Proj.star]) rows = .ok rows := by
    apply exceptMap_ok_of_all
    intro r hrm
    simp [evalRowProjs, evalProjRow, expandStar_eq cols r (hlen r hrm)]
  unfold runSelect
  simp [starQuery, resolveTable, filterRows, selectRows, aggMode, isAgg,
    applyOrder, projNames, hrows]

/-- One insert on a single-table database appends the row and advances the
WAL sequence number. -/
theorem connExec_insert_step (t : String) (cols : List Column) (done : List Row)
    (n : Nat) (r : Row) (hok : rowTypeOk cols r = true) :
    (connExec ⟨⟨[⟨t, cols, done⟩], n⟩, none, false⟩ (Stmt.insert t r)).1 =
      ⟨⟨[⟨t, cols, done ++ [r]⟩], n + 1⟩, none, false⟩ := by
  unfold connExec execMutConn execMut
  simp [List.find?, updTable, hok]

/-- Folding a list of type-correct inserts appends the rows in order. -/
theorem runStmts_inserts (t : String) (cols : List Column) :
    ∀ (rowsIn done : List Row) (n : Nat),
      (∀ r ∈ rowsIn, rowTypeOk cols r = true) →
      runStmts ⟨⟨[⟨t, cols, done⟩], n⟩, none, false⟩ (rowsIn.map (Stmt.insert t)) =
        ⟨⟨[⟨t, cols, done ++ rowsIn⟩], n + rowsIn.length⟩, none, false⟩
  | [], done, n, _ => by simp [runStmts]
  | r :: rest, done, n, hr => by
    have hstep := connExec_insert_step t cols done n r (hr r (by simp))
    have ih := runStmts_inserts t cols rest (done ++ [r]) (n + 1)
      (fun x hx => hr x (by simp [hx]))
    rw [List.map_cons,
      show runStmts ⟨⟨[⟨t, cols, done⟩], n⟩, none, false⟩
          (Stmt.insert t r :: rest.map (Stmt.insert t)) =
        runStmts ((connExec ⟨⟨[⟨t, cols, done⟩], n⟩, none, false⟩ (Stmt.insert t r)).1)
          (rest.map (Stmt.insert t)) from rfl,
      hstep, ih]
    simp only [List.append_assoc, List.singleton_append, List.length_cons]
    congr 2
    omega

/-- C2: for any sequence of type-correct INSERTs into a freshly created
table, `SELECT * FROM T` with no ORDER BY returns exactly the inserted
rows, in exactly insertion order. -/
theorem c2_insertion_order (t : String) (cols : List Column) (rowsIn : List Row)
    (hc : cols ≠ []) (hr : ∀ r ∈ rowsIn, rowTypeOk cols r = true) :
    (connExec (runStmts connectMem (Stmt.create t cols :: rowsIn.map (Stmt.insert t)))
        (Stmt.select (starQuery t))).2 =
      .ok ⟨cols.map (fun c => t ++ "." ++ c.name), rowsIn, 0⟩ := by
  have hce : cols.isEmpty = false := by
    cases cols with
    | nil => exact absurd rfl hc
    | cons a l => rfl
  have hcreate : (connExec connectMem (Stmt.create t cols)).1 =
      ⟨⟨[⟨t, cols, []⟩], 1⟩, none, false⟩ := by
    unfold connExec execMutConn execMut connectMem
    simp [hce]
  rw [show runStmts connectMem (Stmt.create t cols :: rowsIn.map (Stmt.insert t)) =
      runStmts ((connExec connectMem (Stmt.create t cols)).1)
        (rowsIn.map (Stmt.insert t)) from rfl,
    hcreate, runStmts_inserts t cols rowsIn [] 1 hr]
  show runSelect [⟨t, cols, [] ++ rowsIn⟩] (starQuery t) = _
  rw [List.nil_append]
  exact runSelect_star t cols rowsIn (fun r hrm => rowTypeOk_length cols r (hr r hrm))

/-- C2 witness: the `test_iterator` scenario — three INSERTs, then
`SELECT * FROM test` returns the three rows in insertion order. -/
theorem c2_insertion_order_witness :
    (connExec (runStmts connectMem
        (Stmt.create "test" iterCols :: iterRows.map (Stmt.insert "test")))
        (Stmt.select (starQuery "test"))).2 =
      .ok ⟨iterCols.map (fun c => "test" ++ "." ++ c.name), iterRows, 0⟩ :=
  c2_insertion_order "test" iterCols iterRows (by decide) (by decide)

/-- A successful `exceptMap` preserves list length. -/
theorem exceptMap_length {α β : Type} (f : α → Except DBError β) :
    ∀ (l : List α) (l2 : List β), exceptMap f l = .ok l2 → l2.length = l.length
  | [], l2, h => by
    unfold exceptMap at h
    cases h
    rfl
  | a :: l, l2, h => by
    unfold exceptMap at h
    cases hfa : f a with
    | error e => rw [hfa] at h; simp at h
    | ok b =>
      cases hfl : exceptMap f l with
      | error e => rw [hfa, hfl] at h; simp at h
      | ok bs =>
        rw [hfa, hfl] at h
        simp only [Except.ok.injEq] at h
        subst h
        simp [exceptMap_length f l bs hfl]

/-- Every output of a successful `exceptMap` comes from some input. -/
theorem exceptMap_mem {α β : Type} (f : α → Except DBError β) :
    ∀ (l : List α) (l2 : List β), exceptMap f l = .ok l2 →
      ∀ b ∈ l2, ∃ a ∈ l, f a = .ok b
  | [], l2, h => by
    unfold exceptMap at h
    cases h
    simp
  | a :: l, l2, h => by
    unfold exceptMap at h
    cases hfa : f a with
    | error e => rw [hfa] at h; simp at h
    | ok b =>
      cases hfl : exceptMap f l with
      | error e => rw [hfa, hfl] at h; simp at h
      | ok bs =>
        rw [hfa, hfl] at h
        simp only [Except.ok.injEq] at h
        subst h
        intro x hx
        rcases List.mem_cons.mp hx with h1 | h1
        · exact ⟨a, by simp, h1 ▸ hfa⟩
        · rcases exceptMap_mem f l bs hfl x h1 with ⟨a2, ha2, hfa2⟩
          exact ⟨a2, by simp [ha2], hfa2⟩

/-- Membership in a stable insertion comes from the new element or the
old list. -/
theorem mem_insertSorted (le : Row → Row → Bool) (a : Row) :
    ∀ (l : List Row) (x : Row), x ∈ insertSorted le a l → x = a ∨ x ∈ l
  | [], x, h => by
    simp [insertSorted] at h
    exact Or.inl h
  | b :: l, x, h => by
    unfold insertSorted at h
    split at h
    · rcases List.mem_cons.mp h with h1 | h1
      · exact Or.inr (by simp [h1])
      · rcases mem_insertSorted le a l x h1 with h2 | h2
        · exact Or.inl h2
        · exact Or.inr (by simp [h2])
    · rcases List.mem_cons.mp h with h1 | h1
      · exact Or.inl h1
      · exact Or.inr h1

/-- Membership after folding stable insertions comes from the accumulator
or the inserted rows. -/
theorem mem_foldl_insertSorted (le : Row → Row → Bool) :
    ∀ (rows acc : List Row) (x : Row),
      x ∈ rows.foldl (fun acc r => insertSorted le r acc) acc → x ∈ acc ∨ x ∈ rows
  | [], _, _, h => Or.inl h
  | r :: rows, acc, x, h => by
    rcases mem_foldl_insertSorted le rows (insertSorted le r acc) x h with h1 | h1
    · rcases mem_insertSorted le r acc x h1 with h2 | h2
      · exact Or.inr (by simp [h2])
      · exact Or.inl h2
    · exact Or.inr (by simp [h1])

/-- The stable sort emits only input rows. -/
theorem mem_stableSort (le : Row → Row → Bool) (rows : List Row) (x : Row)
    (h : x ∈ stableSort le rows) : x ∈ rows := by
  rcases mem_foldl_insertSorted le rows [] x h with h1 | h1
  · simp at h1
  · exact h1

/-- The ORDER BY stage emits only input rows. -/
theorem applyOrder_mem (names : List String) (ob : List (String × Bool))
    (rows rows2 : List Row) (h : applyOrder names ob rows = .ok rows2) :
    ∀ r ∈ rows2, r ∈ rows := by
  unfold applyOrder at h
  split at h
  · cases h
    exact fun r hr => hr
  · cases hres : resolveOrderCols names ob with
    | error e => rw [hres] at h; simp at h
    | ok keys =>
      rw [hres] at h
      simp only [Except.ok.injEq] at h
      subst h
      exact fun r hr => mem_stableSort _ rows r hr

/-- A non-aggregate projection item contributes at least one value
(assuming a non-degenerate schema when it is `*`). -/
theorem evalProjRow_ne_nil (cols : List Column) (row : Row) (p : Proj) (a : List Value)
    (h : evalProjRow cols row p = .ok a) (hs : isStar p = true → cols ≠ []) :
    a ≠ [] := by
  cases p with
  | star =>
    simp only [evalProjRow, Except.ok.injEq] at h
    subst h
    have hc : cols ≠ [] := hs rfl
    unfold expandStar
    simp only [ne_eq, List.map_eq_nil_iff, List.range_eq_nil]
    intro hlen
    exact hc (List.length_eq_zero.mp hlen)
  | scalar e al =>
    simp only [evalProjRow] at h
    split at h
    · simp only [Except.ok.injEq] at h
      subst h
      simp
    · simp at h
  | aggregate fn arg al =>
    simp only [evalProjRow] at h
    simp at h

/-- Rows surviving table update keep non-degenerate schemas. -/
theorem wf_updTable : ∀ (ts : List Table) (n : String) (v : List Value),
    (∀ t ∈ ts, t.cols ≠ []) → ∀ t ∈ updTable ts n v, t.cols ≠ []
  | [], _, _, _, t, ht => by simp [updTable] at ht
  | t0 :: rest, n, v, hwf, t, ht => by
    unfold updTable at ht
    split at ht
    · rcases List.mem_cons.mp ht with h1 | h1
      · subst h1
        exact hwf t0 (by simp)
      · exact hwf t (by simp [h1])
    · rcases List.mem_cons.mp ht with h1 | h1
      · subst h1
        exact hwf t (by simp)
      · exact wf_updTable rest n v (fun x hx => hwf x (by simp [hx])) t h1

/-- A successful mutation never creates a table with an empty column
list. -/
theorem wf_execMut (st : DBState) (op : WalOp) (st2 : DBState)
    (h : execMut st op = .ok st2) (hwf : ∀ t ∈ st.tables, t.cols ≠ []) :
    ∀ t ∈ st2.tables, t.cols ≠ [] := by
  cases op with
  | createTable n cols =>
    simp only [execMut] at h
    split at h
    · simp at h
    · split at h
      · simp at h
      · rename_i hne
        simp only [Except.ok.injEq] at h
        subst h
        intro t ht
        rcases List.mem_append.mp ht with h1 | h1
        · exact hwf t h1
        · simp only [List.mem_singleton] at h1
          subst h1
          simp only [ne_eq]
          intro hcnil
          exact hne (by simp [hcnil])
  | insertRow tn vals =>
    simp only [execMut] at h
    split at h
    · simp at h
    · split at h
      · simp only [Except.ok.injEq] at h
        subst h
        exact wf_updTable st.tables tn vals hwf
      · simp at h

/-- Every connection reachable from a fresh one keeps non-degenerate
table schemas. -/
theorem wf_connExec (c : Conn) (s : Stmt)
    (hwf : ∀ t ∈ c.st.tables, t.cols ≠ []) :
    ∀ t ∈ ((connExec c s).1).st.tables, t.cols ≠ [] := by
  unfold connExec
  split
  · exact hwf
  · cases s with
    | select q => exact hwf
    | create n cols =>
      simp only [execMutConn]
      split
      · exact hwf
      · rename_i st2 hm
        exact wf_execMut c.st _ st2 hm hwf
    | insert t vals =>
      simp only [execMutConn]
      split
      · exact hwf
      · rename_i st2 hm
        exact wf_execMut c.st _ st2 hm hwf

/-- Well-formedness of table schemas along any statement run. -/
theorem wf_runStmts : ∀ (ss : List Stmt) (c : Conn),
    (∀ t ∈ c.st.tables, t.cols ≠ []) →
    ∀ t ∈ (runStmts c ss).st.tables, t.cols ≠ []
  | [], _, hwf => hwf
  | s :: ss, c, hwf =>
    wf_runStmts ss ((connExec c s).1) (wf_connExec c s hwf)

/-- Every row of a successful query over non-degenerate tables is
non-empty. -/
theorem runSelect_rows_ne_nil (ts : List Table) (q : SelectStmt) (rs : ResultSet)
    (hwf : ∀ t ∈ ts, t.cols ≠ []) (h : runSelect ts q = .ok rs) :
    ∀ r ∈ rs.rows, r ≠ [] := by
  unfold runSelect at h
  split at h
  · simp at h
  · rename_i hne
    split at h
    · simp at h
    · rename_i tbl hres
      have hstar : ∀ pj ∈ q.projections, isStar pj = true → tbl.cols ≠ [] := by
        unfold resolveTable at hres
        split at hres
        · split at hres
          · simp at hres
          · rename_i hnostar
            intro pj hpj hst
            exact absurd (List.any_eq_true.mpr ⟨pj, hpj, hst⟩) hnostar
        · rename_i n hfrom
          split at hres
          · rename_i t0 hf
            simp only [Except.ok.injEq] at hres
            subst hres
            intro _ _ _
            exact hwf t0 (List.mem_of_find?_eq_some hf)
          · simp at hres
      split at h
      · simp at h
      · rename_i passed hfil
        split at h
        · simp at h
        · rename_i rows hsel
          split at h
          · simp at h
          · rename_i rows2 hord
            simp only [Except.ok.injEq] at h
            subst h
            intro r hr
            have hrrows : r ∈ rows := applyOrder_mem _ _ rows rows2 hord r hr
            have hpne : q.projections ≠ [] := by
              intro hnil
              exact hne (by simp [hnil])
            unfold selectRows at hsel
            split at hsel
            · split at hsel
              · simp at hsel
              · rcases exceptMap_mem _ _ rows hsel r hrrows with ⟨grp, _, hgrp⟩
                have hlen := exceptMap_length _ q.projections r hgrp
                intro hrnil
                subst hrnil
                simp only [List.length_nil] at hlen
                exact hpne (List.length_eq_zero.mp hlen.symm)
            · rcases exceptMap_mem _ passed rows hsel r hrrows with ⟨row, _, hrow⟩
              cases hp : q.projections with
              | nil => exact absurd hp hpne
              | cons p ps =>
                rw [hp] at hrow
                simp only [evalRowProjs] at hrow
                split at hrow
                · rename_i a b hpr hps
                  simp only [Except.ok.injEq] at hrow
                  subst hrow
                  have hane : a ≠ [] :=
                    evalProjRow_ne_nil tbl.cols row p a hpr
                      (fun hst => hstar p (by simp [hp]) hst)
                  intro hnil
                  exact hane (List.append_eq_nil.mp hnil).1
                · simp at hrow
                · simp at hrow

/-- C10: the exhaustion sentinel of `fetchone()` is the falsy `none`,
distinct by construction from every real row; every row of a real query
ResultSet is a non-empty (hence truthy) tuple; and at any position the
sentinel appears exactly at exhaustion, so a `while row:` loop stops
exactly there and `fetchone` on a non-exhausted ResultSet is never the
sentinel. -/
theorem c10_sentinel (ss : List Stmt) (q : SelectStmt) (rs : ResultSet) (p : Nat)
    (h : (connExec (runStmts connectMem ss) (Stmt.select q)).2 = .ok rs) :
    (∀ r ∈ rs.rows, r ≠ []) ∧
    ((fetchone ⟨rs.schema, rs.rows, p⟩).1 = none ↔ rs.rows.length ≤ p) ∧
    (∀ r, (fetchone ⟨rs.schema, rs.rows, p⟩).1 = some r → r ≠ []) := by
  have hwf : ∀ t ∈ (runStmts connectMem ss).st.tables, t.cols ≠ [] :=
    wf_runStmts ss connectMem (by simp [connectMem])
  have hq : runSelect (runStmts connectMem ss).st.tables q = .ok rs := by
    unfold connExec at h
    split at h
    · simp at h
    · exact h
  have hmain := runSelect_rows_ne_nil _ q rs hwf hq
  refine ⟨hmain, ?_, ?_⟩
  · constructor
    · intro hnone
      by_contra hlt
      push_neg at hlt
      have := fetchone_of_lt ⟨rs.schema, rs.rows, p⟩ (by simpa using hlt)
      rw [this] at hnone
      simp at hnone
    · intro hge
      rw [fetchone_of_ge ⟨rs.schema, rs.rows, p⟩ (by simpa using hge)]
  · intro r hr
    rcases Nat.lt_or_ge p rs.rows.length with hlt | hge
    · rw [fetchone_of_lt ⟨rs.schema, rs.rows, p⟩ (by simpa using hlt)] at hr
      simp only [Option.some.injEq] at hr
      subst hr
      exact hmain _ (by simp [List.getElem_mem])
    · rw [fetchone_of_ge ⟨rs.schema, rs.rows, p⟩ (by simpa using hge)] at hr
      simp at hr

/-- C10 witness: the one-row ResultSet of `sentinelScript` — at position 0
the sentinel does not appear, and the fetched row is non-empty. -/
theorem c10_sentinel_witness :
    ((fetchone ⟨sentinelResult.schema, sentinelResult.rows, 0⟩).1 = none ↔
      sentinelResult.rows.length ≤ 0) ∧
    ([Value.vint 1] : Row) ≠ [] :=
  ⟨(c10_sentinel sentinelScript (starQuery "t") sentinelResult 0 rfl).2.1,
   (c10_sentinel sentinelScript (starQuery "t") sentinelResult 0 rfl).2.2
     [Value.vint 1] rfl⟩

/-- Membership is unchanged by first-occurrence deduplication. -/
theorem mem_dedupFirst {α : Type} [DecidableEq α] :
    ∀ (l : List α) (x : α), x ∈ dedupFirst l ↔ x ∈ l
  | [], x => by simp [dedupFirst]
  | k :: l, x => by
    rw [dedupFirst]
    simp only [List.mem_cons]
    constructor
    · rintro (rfl | hx)
      · exact Or.inl rfl
      · exact Or.inr (List.mem_of_mem_filter ((mem_dedupFirst _ x).mp hx))
    · rintro (rfl | hx)
      · exact Or.inl rfl
      · by_cases hxk : x = k
        · exact Or.inl hxk
        · exact Or.inr ((mem_dedupFirst _ x).mpr
            (List.mem_filter.mpr ⟨hx, by simp [hxk]⟩))
termination_by l _ => l.length
decreasing_by
  all_goals
    simp only [List.length_cons]
    exact Nat.lt_succ_of_le (List.length_filter_le _ _)

/-- First-occurrence deduplication emits each key exactly once. -/
theorem nodup_dedupFirst {α : Type} [DecidableEq α] :
    ∀ (l : List α), (dedupFirst l).Nodup
  | [] => by simp [dedupFirst]
  | k :: l => by
    rw [dedupFirst]
    refine List.nodup_cons.mpr ⟨?_, nodup_dedupFirst _⟩
    intro hmem
    have h2 := List.mem_filter.mp ((mem_dedupFirst _ k).mp hmem)
    simp at h2
termination_by l => l.length
decreasing_by
  simp only [List.length_cons]
  exact Nat.lt_succ_of_le (List.length_filter_le _ _)

/-- Appending one element extends the first-occurrence deduplication at
the end exactly when the element is new. -/
theorem dedupFirst_concat {α : Type} [DecidableEq α] (a : α) :
    ∀ (l : List α),
      dedupFirst (l ++ [a]) = if a ∈ l then dedupFirst l else dedupFirst l ++ [a]
  | [] => by simp [dedupFirst]
  | x :: l => by
    rw [List.cons_append, dedupFirst]
    by_cases hax : a = x
    · subst hax
      have hfil : (l ++ [a]).filter (fun y => !(y == a)) =
          l.filter (fun y => !(y == a)) := by
        rw [List.filter_append]
        simp
      rw [hfil, if_pos (by simp), dedupFirst]
    · have hfil : (l ++ [a]).filter (fun y => !(y == x)) =
          l.filter (fun y => !(y == x)) ++ [a] := by
        rw [List.filter_append]
        simp [hax]
      rw [hfil, dedupFirst_concat a (l.filter (fun y => !(y == x)))]
      by_cases hal : a ∈ l
      · have hmf : a ∈ l.filter (fun y => !(y == x)) :=
          List.mem_filter.mpr ⟨hal, by simp [hax]⟩
        rw [if_pos hmf, if_pos (by simp [hal]), dedupFirst]
      · have hmf : a ∉ l.filter (fun y => !(y == x)) :=
          fun hc => hal (List.mem_of_mem_filter hc)
        rw [if_neg hmf, if_neg (by simp [hal, hax]), dedupFirst, List.cons_append]
termination_by l => l.length
decreasing_by
  simp only [List.length_cons]
  exact Nat.lt_succ_of_le (List.length_filter_le _ _)

/-- The group keys after adding one row: unchanged when the key already
has a group, else the new key appended at the end. -/
theorem map_fst_addToGroups :
    ∀ (gs : List (List Value × List Row)) (k : List Value) (r : Row),
      (addToGroups gs k r).map Prod.fst =
        if k ∈ gs.map Prod.fst then gs.map Prod.fst else gs.map Prod.fst ++ [k]
  | [], k, r => by simp [addToGroups]
  | (k2, rs2) :: rest, k, r => by
    simp only [addToGroups]
    by_cases hk : k2 = k
    · subst hk
      simp [List.mem_cons]
    · rw [if_neg hk]
      simp only [List.map_cons]
      rw [map_fst_addToGroups rest k r]
      by_cases hmem : k ∈ rest.map Prod.fst
      · rw [if_pos hmem, if_pos (by simp [hmem])]
      · rw [if_neg hmem,
          if_neg (by
            simp only [List.mem_cons, not_or]
            exact ⟨fun h => hk h.symm, hmem⟩),
          List.cons_append]

/-- Adding a row to a sound group accumulator keeps every group equal to
the filter of the processed rows by its key. -/
theorem addToGroups_filter (keyOf : Row → List Value) (done : List Row) (r : Row) :
    ∀ (gs : List (List Value × List Row)),
      (gs.map Prod.fst).Nodup →
      (∀ p ∈ gs, p.2 = done.filter (fun x => keyOf x == p.1)) →
      (keyOf r ∉ gs.map Prod.fst → done.filter (fun x => keyOf x == keyOf r) = []) →
      ∀ p ∈ addToGroups gs (keyOf r) r,
        p.2 = (done ++ [r]).filter (fun x => keyOf x == p.1)
  | [], _, _, hfresh, p, hp => by
    simp only [addToGroups, List.mem_singleton] at hp
    subst hp
    rw [List.filter_append, hfresh (by simp)]
    simp
  | (k2, rs2) :: rest, hnd, hgrp, hfresh, p, hp => by
    simp only [addToGroups] at hp
    by_cases hk : k2 = keyOf r
    · rw [if_pos hk] at hp
      rcases List.mem_cons.mp hp with h1 | h1
      · subst h1
        have h2 := hgrp (k2, rs2) (by simp)
        simp only at h2 ⊢
        rw [List.filter_append, ← h2, hk]
        simp
      · have h2 := hgrp p (by simp [h1])
        rw [List.filter_append, ← h2]
        have hne : ¬ (keyOf r == p.1) = true := by
          simp only [beq_iff_eq]
          intro heq
          have hp1 : p.1 ∈ rest.map Prod.fst := List.mem_map_of_mem Prod.fst h1
          rw [← heq, ← hk] at hp1
          exact (List.nodup_cons.mp (by simpa using hnd)).1 hp1
        simp [hne]
    · rw [if_neg hk] at hp
      rcases List.mem_cons.mp hp with h1 | h1
      · subst h1
        have h2 := hgrp (k2, rs2) (by simp)
        simp only at h2 ⊢
        rw [List.filter_append, ← h2]
        have hne : ¬ (keyOf r == k2) = true := by
          simp only [beq_iff_eq]
          exact fun heq => hk (heq.symm)
        simp [hne]
      · refine addToGroups_filter keyOf done r rest
          (List.nodup_cons.mp (by simpa using hnd)).2
          (fun x hx => hgrp x (by simp [hx]))
          (fun hnot => hfresh (by
            simp only [List.map_cons, List.mem_cons]
            rintro (heq | hm)
            · exact hk heq.symm
            · exact hnot hm)) p h1

/-- Folding rows into the group accumulator partitions them by key, with
keys in order of first occurrence. -/
theorem groupRows_invariant (keyOf : Row → List Value) :
    ∀ (rows done : List Row) (gs : List (List Value × List Row)),
      (gs.map Prod.fst).Nodup →
      gs.map Prod.fst = dedupFirst (done.map keyOf) →
      (∀ p ∈ gs, p.2 = done.filter (fun x => keyOf x == p.1)) →
      (rows.foldl (fun acc r => addToGroups acc (keyOf r) r) gs).map Prod.fst =
          dedupFirst ((done ++ rows).map keyOf) ∧
      ∀ p ∈ rows.foldl (fun acc r => addToGroups acc (keyOf r) r) gs,
        p.2 = (done ++ rows).filter (fun x => keyOf x == p.1)
  | [], done, gs, _, hkeys, hgrp => by
    simp only [List.foldl_nil, List.append_nil]
    exact ⟨hkeys, hgrp⟩
  | r :: rows, done, gs, hnd, hkeys, hgrp => by
    have hmemiff : keyOf r ∈ gs.map Prod.fst ↔ keyOf r ∈ done.map keyOf := by
      rw [hkeys]
      exact mem_dedupFirst _ _
    have hnd2 : ((addToGroups gs (keyOf r) r).map Prod.fst).Nodup := by
      rw [map_fst_addToGroups]
      split
      · exact hnd
      · rename_i hnot
        simp [List.nodup_append, hnd, hnot]
    have hkeys2 : (addToGroups gs (keyOf r) r).map Prod.fst =
        dedupFirst ((done ++ [r]).map keyOf) := by
      rw [map_fst_addToGroups,
        List.map_append, List.map_cons, List.map_nil, dedupFirst_concat]
      by_cases hm : keyOf r ∈ done.map keyOf
      · rw [if_pos (hmemiff.mpr hm), if_pos hm, hkeys]
      · rw [if_neg (fun hc => hm (hmemiff.mp hc)), if_neg hm, hkeys]
    have hgrp2 : ∀ p ∈ addToGroups gs (keyOf r) r,
        p.2 = (done ++ [r]).filter (fun x => keyOf x == p.1) :=
      addToGroups_filter keyOf done r gs hnd hgrp (by
        intro hnot
        refine List.filter_eq_nil_iff.mpr ?_
        intro x hx
        simp only [beq_iff_eq]
        intro heq
        exact hnot (hmemiff.mpr (heq ▸ List.mem_map_of_mem keyOf hx)))
    have ih := groupRows_invariant keyOf rows (done ++ [r])
      (addToGroups gs (keyOf r) r) hnd2 hkeys2 hgrp2
    simp only [List.foldl_cons]
    constructor
    · have h1 := ih.1
      rwa [List.append_assoc, List.singleton_append] at h1
    · have h2 := ih.2
      rwa [List.append_assoc, List.singleton_append] at h2

/-- C4: the grouping stage emits exactly one group per distinct key, keyed
without duplicates, in order of first occurrence, and each group holds
exactly the rows whose key matches; on the concrete sales table the GROUP
BY region query yields one row per region with independently correct
per-group aggregates, North first. -/
theorem c4_group_by_partition (keyOf : Row → List Value) (rows : List Row) :
    ((groupRows keyOf rows).map Prod.fst = dedupFirst (rows.map keyOf) ∧
     ((groupRows keyOf rows).map Prod.fst).Nodup ∧
     ∀ p ∈ groupRows keyOf rows, p.2 = rows.filter (fun x => keyOf x == p.1)) ∧
    (connExec salesConn (.select salesGroupQuery)).2 =
      .ok ⟨["sales.region", "num_sales", "total_revenue", "avg_sale", "max_qty"],
           [[.vtext "North", .vint 2, .vdouble 1545, .vdouble (1545 / 2 : ℚ), .vint 10],
            [.vtext "South", .vint 2, .vdouble 2150, .vdouble 1075, .vint 5]], 0⟩ := by
  have hmain := groupRows_invariant keyOf rows [] []
    (by simp) (by simp [dedupFirst]) (by simp)
  simp only [List.nil_append] at hmain
  have hkeys : (groupRows keyOf rows).map Prod.fst = dedupFirst (rows.map keyOf) :=
    hmain.1
  refine ⟨⟨hkeys, ?_, hmain.2⟩, ?_⟩
  · rw [hkeys]
    exact nodup_dedupFirst _
  · with_unfolding_all rfl

/-- C4 witness: grouping demonstration rows by first value keeps keys in
first-occurrence order, and the sales GROUP BY query yields the two
per-region rows. -/
theorem c4_group_by_partition_witness :
    ((groupRows groupKeyDemo groupRowsDemo).map Prod.fst =
      dedupFirst (groupRowsDemo.map groupKeyDemo)) ∧
    (connExec salesConn (.select salesGroupQuery)).2 =
      .ok ⟨["sales.region", "num_sales", "total_revenue", "avg_sale", "max_qty"],
           [[.vtext "North", .vint 2, .vdouble 1545, .vdouble (1545 / 2 : ℚ), .vint 10],
            [.vtext "South", .vint 2, .vdouble 2150, .vdouble 1075, .vint 5]], 0⟩ :=
  ⟨(c4_group_by_partition groupKeyDemo groupRowsDemo).1.1,
   (c4_group_by_partition groupKeyDemo groupRowsDemo).2⟩

/-- A successful mutation advances the WAL sequence number by exactly
one. -/
theorem execMut_nextSeq (st : DBState) (op : WalOp) (st2 : DBState)
    (h : execMut st op = .ok st2) : st2.nextSeq = st.nextSeq + 1 := by
  cases op with
  | createTable n cols =>
    simp only [execMut] at h
    split at h
    · simp at h
    · split at h
      · simp at h
      · simp only [Except.ok.injEq] at h
        subst h
        rfl
  | insertRow t vals =>
    simp only [execMut] at h
    split at h
    · simp at h
    · split at h
      · simp only [Except.ok.injEq] at h
        subst h
        rfl
      · simp at h

/-- Replaying one more trailing record applies it to the replayed
prior state. -/
theorem replay_concat (st : DBState) (l : List WalRecord) (r : WalRecord) :
    replay st (l ++ [r]) = applyRec (replay st l) r := by
  simp [replay, List.foldl_append]

/-- A fresh file-backed database satisfies the durability invariant. -/
theorem fileInv_fresh : FileInv (connectFile none) := by
  unfold FileInv
  exact ⟨rfl, ⟨0, [], []⟩, rfl, rfl, rfl, fun k hk => absurd hk (Nat.not_lt_zero k)⟩

/-- One mutating statement preserves the durability invariant: the record
appended to the WAL carries the next sequence number and replays to the
new state. -/
theorem fileInv_execMutConn (c : Conn) (op : WalOp) (h : FileInv c) :
    FileInv ((execMutConn c op).1) := by
  unfold execMutConn
  split
  · exact h
  · rename_i st2 heq
    obtain ⟨hcl, f, hfile, hopen, hseq, hrec⟩ := h
    unfold FileInv
    refine ⟨rfl, ⟨f.checkpointSeq, f.checkpointTables,
        f.wal ++ [⟨c.st.nextSeq, op⟩]⟩, ?_, ?_, ?_, ?_⟩
    · show Option.map _ c.file = _
      rw [hfile]
      rfl
    · show replay (⟨f.checkpointTables, f.checkpointSeq⟩ : DBState)
        (f.wal ++ [(⟨c.st.nextSeq, op⟩ : WalRecord)]) = st2
      rw [replay_concat]
      have hre : replay (⟨f.checkpointTables, f.checkpointSeq⟩ : DBState) f.wal = c.st :=
        hopen
      rw [hre]
      simp [applyRec, heq]
    · show f.checkpointSeq + (f.wal ++ [(⟨c.st.nextSeq, op⟩ : WalRecord)]).length =
        st2.nextSeq
      rw [List.length_append, execMut_nextSeq c.st op st2 heq]
      simp only [List.length_cons, List.length_nil]
      omega
    · intro k hk
      simp only [List.length_append, List.length_cons, List.length_nil] at hk
      by_cases hklt : k < f.wal.length
      · rw [List.getD_append _ _ _ _ hklt]
        exact hrec k hklt
      · have hkeq : k = f.wal.length := by omega
        subst hkeq
        rw [List.getD_eq_getElem?_getD, List.getElem?_concat_length]
        simp only [Option.getD_some]
        omega

/-- Any statement preserves the durability invariant. -/
theorem fileInv_step (c : Conn) (s : Stmt) (h : FileInv c) :
    FileInv ((connExec c s).1) := by
  have hcl := h.1
  unfold connExec
  rw [hcl, if_neg (by simp)]
  cases s with
  | select q => exact h
  | create n cols => exact fileInv_execMutConn c _ h
  | insert t vals => exact fileInv_execMutConn c _ h

/-- The durability invariant holds along any statement run. -/
theorem fileInv_run : ∀ (ss : List Stmt) (c : Conn), FileInv c →
    FileInv (runStmts c ss)
  | [], _, h => h
  | s :: ss, c, h => fileInv_run ss ((connExec c s).1) (fileInv_step c s h)

/-- C1: for every statement run against a fresh file-backed database,
closing and reopening the same path restores exactly the pre-close state,
so every SELECT agrees before and after the reopen; the WAL sequence
numbers are strictly increasing; and when the trailing WAL record is
truncated (a crash mid-append), replay recovers the state holding every
prior committed record — applying just the lost record restores the full
final state. -/
theorem c1_wal_roundtrip (ss : List Stmt) :
    ((connectFile (closeConn (runFresh ss)).file).st = (runFresh ss).st) ∧
    (∀ q : SelectStmt,
      runSelect (connectFile (closeConn (runFresh ss)).file).st.tables q =
        runSelect (runFresh ss).st.tables q) ∧
    (∀ f, (runFresh ss).file = some f →
      (∀ i j, i < j → j < f.wal.length →
        (f.wal.getD i dummyRec).seq < (f.wal.getD j dummyRec).seq) ∧
      (f.wal = [] →
        openFile ⟨f.checkpointSeq, f.checkpointTables, []⟩ = (runFresh ss).st) ∧
      (∀ l r, f.wal = l ++ [r] →
        applyRec (openFile ⟨f.checkpointSeq, f.checkpointTables, l⟩) r =
          (runFresh ss).st)) := by
  have hinv : FileInv (runFresh ss) := fileInv_run ss (connectFile none) fileInv_fresh
  obtain ⟨hcl, f0, hfile0, hopen0, hseq0, hrec0⟩ := hinv
  have hclose : (closeConn (runFresh ss)).file =
      some ⟨(runFresh ss).st.nextSeq, (runFresh ss).st.tables, []⟩ := by
    unfold closeConn
    rw [if_neg (by simp [hcl])]
    show Option.map _ (runFresh ss).file = _
    rw [hfile0]
    rfl
  have hpart1 : (connectFile (closeConn (runFresh ss)).file).st = (runFresh ss).st := by
    rw [hclose]
    rfl
  refine ⟨hpart1, fun q => by rw [hpart1], ?_⟩
  intro f hf
  rw [hfile0] at hf
  have hf0 : f0 = f := Option.some.inj hf
  subst hf0
  obtain ⟨cs, ct, wal⟩ := f0
  refine ⟨?_, ?_, ?_⟩
  · intro i j hij hj
    rw [hrec0 i (Nat.lt_trans hij hj), hrec0 j hj]
    omega
  · intro hnil
    subst hnil
    exact hopen0
  · intro l r hcat
    subst hcat
    rw [show openFile ⟨cs, ct, l ++ [r]⟩ =
        applyRec (openFile ⟨cs, ct, l⟩) r from replay_concat _ l r] at hopen0
    exact hopen0

/-- C1 witness: the `example_file_based_db` script — reopen after close
restores the state, and truncating the trailing INSERT record replays to
the state one committed record short, which the lost record restores. -/
theorem c1_wal_roundtrip_witness :
    ((connectFile (closeConn (runFresh fileScript)).file).st = (runFresh fileScript).st) ∧
    applyRec (openFile ⟨0, [], [fileRec0]⟩) fileRec1 = (runFresh fileScript).st :=
  ⟨(c1_wal_roundtrip fileScript).1,
   ((c1_wal_roundtrip fileScript).2.2 ⟨0, [], [fileRec0, fileRec1]⟩ rfl).2.2
     [fileRec0] fileRec1 rfl⟩

end PrismDB
